import Mathlib

/-!
Shallow embedding of the business-card scanner core
(`src/business_card_scanner.py`, with the near-duplicate copies in
`src/app.py`, `src/web_app.py`, `src/email_processor.py`): the OCR
variant scorer, the contact extractor `parse`, the caller-side name
splitting, and the mailing-list upsert key derivation.

Python regular expressions are embedded by a small backtracking engine
over an explicit pattern syntax; candidate matches are produced in the
same priority order as Python's backtracking search (leftmost start,
greedy quantifiers, left-biased alternation), and `search` takes the
first one.  All functions are structurally recursive so that the kernel
can evaluate them on concrete inputs.
-/

namespace BizCard

/-! ### Character classes (ASCII fragment of the Python semantics) -/

/-- Python whitespace (`str.split`, `str.strip`, regex `\s`), ASCII part. -/
def isPySpace (c : Char) : Bool :=
  c == ' ' || c == '\t' || c == '\n' || c == '\r' || c == '\x0b' || c == '\x0c'

/-- Regex word character (for `\b`): `[A-Za-z0-9_]`. -/
def isWordChar (c : Char) : Bool :=
  c.isAlpha || c.isDigit || c == '_'

/-- ASCII lowercasing, as Python `str.lower` acts on ASCII letters. -/
def asciiLower (c : Char) : Char :=
  if c.isUpper then Char.ofNat (c.toNat + 32) else c

/-- Python `str.lower` (ASCII fragment). -/
def pyLower (s : String) : String :=
  ⟨s.data.map asciiLower⟩

/-! ### Python string operations -/

/-- One step of whitespace splitting, consumed by `List.foldr`:
the accumulator is (current word, words to the right). -/
def pySplitStep (c : Char) (acc : List Char × List (List Char)) :
    List Char × List (List Char) :=
  if isPySpace c then
    if acc.1 = [] then ([], acc.2) else ([], acc.1 :: acc.2)
  else (c :: acc.1, acc.2)

/-- Python `str.split()` on a character list: split on whitespace runs,
dropping empty pieces. -/
def pySplitList (s : List Char) : List (List Char) :=
  let r := s.foldr pySplitStep ([], [])
  if r.1 = [] then r.2 else r.1 :: r.2

/-- Python `str.split()` (no separator argument). -/
def pySplit (s : String) : List String :=
  (pySplitList s.data).map (fun l => ⟨l⟩)

/-- Python `str.strip()`: remove leading and trailing whitespace. -/
def pyStrip (s : String) : String :=
  ⟨((s.data.dropWhile isPySpace).reverse.dropWhile isPySpace).reverse⟩

/-- Line-break characters recognised by Python `str.splitlines`
(ASCII part; `\r\n` is handled as a single break separately). -/
def isLineBreak (c : Char) : Bool :=
  c == '\n' || c == '\r' || c == '\x0b' || c == '\x0c' ||
  c == '\x1c' || c == '\x1d' || c == '\x1e'

/-- Worker for `str.splitlines`: `acc` is the current line, reversed. -/
def splitLinesAux : List Char → List Char → List (List Char)
  | acc, [] => if acc = [] then [] else [acc.reverse]
  | acc, '\r' :: '\n' :: cs => acc.reverse :: splitLinesAux [] cs
  | acc, c :: cs =>
    if isLineBreak c then acc.reverse :: splitLinesAux [] cs
    else splitLinesAux (c :: acc) cs

/-- Python `str.splitlines()` (no trailing empty line for a trailing break). -/
def pySplitLines (s : String) : List String :=
  (splitLinesAux [] s.data).map (fun l => ⟨l⟩)

/-- Python `sep.join(xs)`. -/
def joinWith (sep : String) : List String → String
  | [] => ""
  | [x] => x
  | x :: y :: xs => x ++ sep ++ joinWith sep (y :: xs)

/-! ### A backtracking regex engine

Patterns are embedded with explicit syntax; bounded repetitions such as
`\d{3}` and `[A-Za-z]{2,}` are written out as concatenations.  The
matcher returns the list of all end states in Python's backtracking
priority order; `search` keeps the head. -/

/-- Pattern syntax: empty, character class, concatenation, alternation
(left branch preferred), greedy option, greedy Kleene star, and the
word-boundary assertion `\b`. -/
inductive RE where
  | eps : RE
  | cls : (Char → Bool) → RE
  | cat : RE → RE → RE
  | alt : RE → RE → RE
  | opt : RE → RE
  | star : RE → RE
  | wordB : RE

/-- A match state: the last character consumed so far (for `\b`) and
the remaining input. -/
abbrev MState := Option Char × List Char

/-- Does `\b` hold between the previously consumed character and the
head of the remaining input? -/
def atBoundary (prev : Option Char) (s : List Char) : Bool :=
  Bool.xor
    (match prev with | some c => isWordChar c | none => false)
    (match s with | c :: _ => isWordChar c | [] => false)

/-- One layer of the matcher: `rec` handles the recursive call that a
`star` makes after consuming one iteration (it is fuelled one level
lower by `mtchF`).  Results are listed in backtracking priority order. -/
def mtchRe (rec : RE → Option Char → List Char → List MState) :
    RE → Option Char → List Char → List MState
  | .eps, prev, s => [(prev, s)]
  | .cls _, _, [] => []
  | .cls p, _, c :: cs => if p c then [(some c, cs)] else []
  | .cat a b, prev, s =>
    (mtchRe rec a prev s).flatMap fun st => mtchRe rec b st.1 st.2
  | .alt a b, prev, s => mtchRe rec a prev s ++ mtchRe rec b prev s
  | .opt a, prev, s => mtchRe rec a prev s ++ [(prev, s)]
  | .star a, prev, s =>
    ((mtchRe rec a prev s).flatMap fun st => rec (.star a) st.1 st.2) ++
      [(prev, s)]
  | .wordB, prev, s => if atBoundary prev s then [(prev, s)] else []

/-- Fuelled matcher.  The fuel only bounds `star` unrolling; every
starred subpattern of the embedded regexes consumes at least one
character per iteration, so fuel `length + 10` is never exhausted. -/
def mtchF : Nat → RE → Option Char → List Char → List MState
  | 0, _, _, _ => []
  | n + 1, re, prev, s => mtchRe (mtchF n) re prev s

/-- Try to match `re` at the current position; return the highest
priority end state, as Python's backtracking engine would. -/
def matchAtSt (re : RE) (prev : Option Char) (s : List Char) :
    Option MState :=
  (mtchF (s.length + 10) re prev s).head?

/-- Scan left to right for the first position where `re` matches;
return the suffix at that position together with the end state. -/
def searchFrom (re : RE) : Option Char → List Char →
    Option (List Char × MState)
  | prev, s =>
    match matchAtSt re prev s with
    | some st => some (s, st)
    | none =>
      match s with
      | [] => none
      | c :: cs => searchFrom re (some c) cs

/-- Python `re.search(...).group(0)` on a character list. -/
def reSearchList (re : RE) (s : List Char) : Option (List Char) :=
  (searchFrom re none s).map fun r => r.1.take (r.1.length - r.2.2.length)

/-- Python `pattern.search(s)` returning the matched text, or `none`. -/
def reSearch (re : RE) (s : String) : Option String :=
  (reSearchList re s.data).map (fun l => ⟨l⟩)

/-- Truthiness of `pattern.search(s)` (used by line filters). -/
def reTest (re : RE) (s : String) : Bool :=
  (reSearch re s).isSome

/-- One step of `findall` counting at the current position: on a match
count it and continue after its end (advancing one character past a
zero-width match, as Python does); on a failure move one character
right.  `cnt` is the fuelled continuation. -/
def countStep (s : List Char) (cnt : Option Char → List Char → Nat) :
    Option MState → Nat
  | some st =>
    if st.2.length < s.length then 1 + cnt st.1 st.2
    else
      match s with
      | [] => 1
      | c :: cs => 1 + cnt (some c) cs
  | none =>
    match s with
    | [] => 0
    | c :: cs => cnt (some c) cs

/-- Worker for `len(pattern.findall(s))`; fuel `length + 1` makes the
recursion structural. -/
def countAux (re : RE) : Nat → Option Char → List Char → Nat
  | 0, _, _ => 0
  | fuel + 1, prev, s => countStep s (countAux re fuel) (matchAtSt re prev s)

/-- Python `len(pattern.findall(s))` (the patterns embedded here have
no capturing groups that would change `findall`'s output). -/
def reCount (re : RE) (s : String) : Nat :=
  countAux re (s.data.length + 1) none s.data

/-! ### The regex patterns of the source -/

/-- A single literal character. -/
def chr (c : Char) : RE := .cls (fun d => d == c)

/-- A literal string, as a concatenation of characters. -/
def strRe (s : String) : RE := (s.data.map chr).foldr .cat .eps

/-- Greedy `+`: one copy, then a greedy star. -/
def rePlus (a : RE) : RE := .cat a (.star a)

/-- `\d`. -/
def digitC : RE := .cls Char.isDigit

/-- `[A-Za-z]`. -/
def alphaC : RE := .cls Char.isAlpha

/-- `\d{3}`. -/
def d3 : RE := .cat digitC (.cat digitC digitC)

/-- `\d{4}`. -/
def d4 : RE := .cat digitC d3

/-- `[A-Za-z]{2,}`. -/
def alpha2plus : RE := .cat alphaC (rePlus alphaC)

/-- `[\s\-.]` (phone separator class). -/
def sepC : RE := .cls (fun c => isPySpace c || c == '-' || c == '.')

/-- Email local-part class `[A-Za-z0-9._%+-]`. -/
def emailLocalChar (c : Char) : Bool :=
  c.isAlpha || c.isDigit || c == '.' || c == '_' || c == '%' ||
  c == '+' || c == '-'

/-- Email domain class `[A-Za-z0-9.-]`. -/
def emailDomainChar (c : Char) : Bool :=
  c.isAlpha || c.isDigit || c == '.' || c == '-'

/-- Website label class `[A-Za-z0-9\-]`. -/
def webLabelChar (c : Char) : Bool :=
  c.isAlpha || c.isDigit || c == '-'

/-- `EMAIL_RE = [A-Za-z0-9._%+-]+@[A-Za-z0-9.-]+\.[A-Za-z]{2,}`
(`business_card_scanner.py` line 34; the `re.I` flag is irrelevant
because every letter class already covers both cases). -/
def EMAIL_RE : RE :=
  .cat (rePlus (.cls emailLocalChar))
    (.cat (chr '@')
      (.cat (rePlus (.cls emailDomainChar))
        (.cat (chr '.') alpha2plus)))

/-- `PHONE_RE = (?:(?:\+?1[\s\-.])?)?(?:\(?\d{3}\)?|\d{3})[\s\-.]?\d{3}[\s\-.]?\d{4}`
(`business_card_scanner.py` line 35). -/
def PHONE_RE : RE :=
  .cat (.opt (.opt (.cat (.opt (chr '+')) (.cat (chr '1') sepC))))
    (.cat (.alt (.cat (.opt (chr '(')) (.cat d3 (.opt (chr ')')))) d3)
      (.cat (.opt sepC)
        (.cat d3 (.cat (.opt sepC) d4))))

/-- `WEB_RE = \b(?:https?://)?(?:www\.)?[A-Za-z0-9\-]+(?:\.[A-Za-z]{2,}){1,}(/[^\s]*)?\b`
(`business_card_scanner.py` line 36; the capturing group only affects
submatches, never `group(0)`). -/
def WEB_RE : RE :=
  .cat .wordB
    (.cat (.opt (.cat (strRe "http") (.cat (.opt (chr 's')) (strRe "://"))))
      (.cat (.opt (strRe "www."))
        (.cat (rePlus (.cls webLabelChar))
          (.cat (rePlus (.cat (chr '.') alpha2plus))
            (.cat (.opt (.cat (chr '/') (.star (.cls (fun c => !isPySpace c)))))
              .wordB)))))

/-- `PHONE_PATTERN = (?:\+?1[\s\-.])?(?:\(?\d{3}\)?[\s\-.]?)?\d{3}[\s\-.]?\d{4}`
(`app.py` line 34: unlike `PHONE_RE`, the whole area-code group is
optional). -/
def PHONE_PATTERN : RE :=
  .cat (.opt (.cat (.opt (chr '+')) (.cat (chr '1') sepC)))
    (.cat (.opt (.cat (.opt (chr '(')) (.cat d3 (.cat (.opt (chr ')')) (.opt sepC)))))
      (.cat d3 (.cat (.opt sepC) d4)))

/-! ### The variant scorer (`ocr_bytes_with_rotation`, lines 94-111)

The image decoding and the per-variant OCR calls are external
collaborators; what remains of the scorer is the selection loop over
the variant outputs.  A variant whose OCR call raised is `none`; a
decode failure of the whole image makes the variant list unavailable
(`selectBestText none`). -/

/-- The scoring expression of line 102:
`len(emails) * 10 + len(phones) * 5 + len(text.split())`. -/
def score (t : String) : Nat :=
  reCount EMAIL_RE t * 10 + reCount PHONE_RE t * 5 + (pySplit t).length

/-- The selection loop of lines 97-109: state is `(best_result,
best_score)`, a failed variant is skipped, and the best is replaced
only on a strictly greater score. -/
def bestLoop : List (Option String) → String → Nat → String
  | [], best, _ => best
  | none :: rest, best, bs => bestLoop rest best bs
  | some t :: rest, best, bs =>
    if bs < score t then bestLoop rest t (score t) else bestLoop rest best bs

/-- `selectBestText`: empty string when decoding fails (`none`),
otherwise the selection loop started from `("", 0)` (lines 94-95). -/
def selectBestText : Option (List (Option String)) → String
  | none => ""
  | some results => bestLoop results "" 0

/-! ### The contact extractor (`parse`, lines 116-143) -/

/-- The record returned by `parse`. -/
structure ContactRecord where
  name : Option String
  company : Option String
  email : Option String
  phone : Option String
  website : Option String
  raw_text : String
deriving DecidableEq, Repr

/-- The candidate loop of lines 125-130: skip a line with an email,
phone or website match, skip a line with at most one token, keep the
rest. -/
def candLoop : List String → List String
  | [] => []
  | ln :: rest =>
    if reTest EMAIL_RE ln || reTest PHONE_RE ln || reTest WEB_RE ln then
      candLoop rest
    else if (pySplit ln).length ≤ 1 then candLoop rest
    else ln :: candLoop rest

/-- `parse` (lines 116-143): trim and drop empty lines, search the
joined block for the first email/phone/website match, scan the first
six lines for name/company candidates. -/
def parse (text : String) : ContactRecord :=
  let lines := ((pySplitLines text).map pyStrip).filter (fun l => l ≠ "")
  let block := joinWith "\n" lines
  let candidates := candLoop (lines.take 6)
  { name := candidates.head?
    company := candidates[1]?
    email := reSearch EMAIL_RE block
    phone := reSearch PHONE_RE block
    website := reSearch WEB_RE block
    raw_text := block }

/-! ### Caller-side name splitting (`main`, lines 207-213)

`parts = fields["name"].split()`; two or more parts give
`parts[0]` and `" ".join(parts[1:])`, one part gives `parts[0]` and an
empty last name (`lname` stays `None` and is merged as `""`).  A name
with no parts at all would make `parts[0]` raise in Python, modelled
as `none`. -/
def splitName (nm : String) : Option (String × String) :=
  match pySplit nm with
  | [] => none
  | [t] => some (t, "")
  | t :: r :: rs => some (t, joinWith " " (r :: rs))

/-! ### Mailing-list upsert key (`mc_upsert`, lines 145-157)

The MD5 digest is computed by the external `hashlib` collaborator,
abstracted as a function argument; `mc_upsert` feeds it
`email.lower()` and sends `email.lower()` in the payload. -/

/-- `hashlib.md5(email.lower().encode()).hexdigest()` with the digest
function abstracted. -/
def subscriberHash (md5Hex : String → String) (email : String) : String :=
  md5Hex (pyLower email)

/-- The member URL of line 150, built from the subscriber hash. -/
def memberUrl (md5Hex : String → String) (server listId email : String) :
    String :=
  "https://" ++ server ++ ".api.mailchimp.com/3.0" ++ "/lists/" ++ listId ++
    "/members/" ++ subscriberHash md5Hex email

/-- The `email_address` field of the payload (line 153). -/
def payloadEmail (email : String) : String := pyLower email

/-! ### Lemmas about the selection loop -/

/-- If no remaining text scores above the current best score, the loop
keeps the current best. -/
lemma bestLoop_no_improve (l : List (Option String)) (b : String) (bs : Nat)
    (h : ∀ t, some t ∈ l → score t ≤ bs) : bestLoop l b bs = b := by
  induction l with
  | nil => rfl
  | cons r rest ih =>
    cases r with
    | none =>
      rw [bestLoop]
      exact ih fun t ht => h t (List.mem_cons_of_mem _ ht)
    | some t =>
      rw [bestLoop]
      have hle : score t ≤ bs := h t (List.mem_cons_self _ _)
      rw [if_neg (by omega)]
      exact ih fun u hu => h u (List.mem_cons_of_mem _ hu)

/-- The loop returns the first text attaining the strict maximum score,
provided that score beats the incoming best score. -/
lemma bestLoop_first_max (l : List String) (i : Nat) (hi : i < l.length)
    (b : String) (bs : Nat)
    (hbs : bs < score (l.get ⟨i, hi⟩))
    (hmax : ∀ j, (hj : j < l.length) → score (l.get ⟨j, hj⟩) ≤ score (l.get ⟨i, hi⟩))
    (hfirst : ∀ j, (hj : j < l.length) → j < i →
      score (l.get ⟨j, hj⟩) < score (l.get ⟨i, hi⟩)) :
    bestLoop (l.map some) b bs = l.get ⟨i, hi⟩ := by
  induction l generalizing i b bs with
  | nil => exact absurd hi (by simp)
  | cons x rest ih =>
    cases i with
    | zero =>
      have h0 : (x :: rest).get ⟨0, hi⟩ = x := rfl
      rw [h0] at hbs hmax ⊢
      rw [List.map_cons, bestLoop, if_pos hbs]
      refine bestLoop_no_improve _ _ _ fun t ht => ?_
      rcases List.mem_map.mp ht with ⟨u, hu, huv⟩
      obtain rfl : u = t := Option.some.inj huv
      rcases List.mem_iff_get.mp hu with ⟨⟨j, hj⟩, rfl⟩
      have hj1 : j + 1 < (x :: rest).length := by simpa using hj
      have hle := hmax (j + 1) hj1
      simpa using hle
    | succ k =>
      have hk : k < rest.length := by simpa using hi
      have hsucc : (x :: rest).get ⟨k + 1, hi⟩ = rest.get ⟨k, hk⟩ := rfl
      rw [hsucc] at hbs hmax hfirst ⊢
      rw [List.map_cons, bestLoop]
      by_cases hx : bs < score x
      · rw [if_pos hx]
        refine ih k hk x (score x) ?_ ?_ ?_
        · have h0 : (0 : Nat) < (x :: rest).length := by simp
          have hlt := hfirst 0 h0 (by omega)
          simpa using hlt
        · intro j hj
          have hj1 : j + 1 < (x :: rest).length := by simpa using hj
          have hle := hmax (j + 1) hj1
          simpa using hle
        · intro j hj hlt
          have hj1 : j + 1 < (x :: rest).length := by simpa using hj
          have hl2 := hfirst (j + 1) hj1 (by omega)
          simpa using hl2
      · rw [if_neg hx]
        refine ih k hk b bs hbs ?_ ?_
        · intro j hj
          have hj1 : j + 1 < (x :: rest).length := by simpa using hj
          have hle := hmax (j + 1) hj1
          simpa using hle
        · intro j hj hlt
          have hj1 : j + 1 < (x :: rest).length := by simpa using hj
          have hl2 := hfirst (j + 1) hj1 (by omega)
          simpa using hl2

/-- A run in which every variant failed leaves the best unchanged. -/
lemma bestLoop_all_none (rs : List (Option String)) (b : String) (bs : Nat)
    (h : ∀ r ∈ rs, r = none) : bestLoop rs b bs = b := by
  induction rs with
  | nil => rfl
  | cons r rest ih =>
    have hr : r = none := h r (List.mem_cons_self _ _)
    subst hr
    rw [bestLoop]
    exact ih fun u hu => h u (List.mem_cons_of_mem _ hu)

/-- A run in which every variant failed or produced empty text leaves
the best unchanged: the empty text scores zero, which is never strictly
above the non-negative best score. -/
lemma bestLoop_all_empty (rs : List (Option String)) (b : String) (bs : Nat)
    (h : ∀ r ∈ rs, r = none ∨ r = some "") : bestLoop rs b bs = b := by
  induction rs with
  | nil => rfl
  | cons r rest ih =>
    rcases h r (List.mem_cons_self _ _) with hr | hr <;> subst hr
    · rw [bestLoop]
      exact ih fun u hu => h u (List.mem_cons_of_mem _ hu)
    · have h0 : score "" = 0 := by decide
      rw [bestLoop, if_neg (by omega)]
      exact ih fun u hu => h u (List.mem_cons_of_mem _ hu)

/-- Removing one failed variant from anywhere in the run does not
change the loop's result. -/
lemma bestLoop_skip_none (xs ys : List (Option String)) (b : String) (bs : Nat) :
    bestLoop (xs ++ none :: ys) b bs = bestLoop (xs ++ ys) b bs := by
  induction xs generalizing b bs with
  | nil => rw [List.nil_append, List.nil_append, bestLoop]
  | cons r rest ih =>
    cases r with
    | none => rw [List.cons_append, bestLoop, List.cons_append, bestLoop]; exact ih b bs
    | some t =>
      rw [List.cons_append, bestLoop, List.cons_append, bestLoop]
      by_cases hx : bs < score t
      · rw [if_pos hx, if_pos hx]; exact ih t (score t)
      · rw [if_neg hx, if_neg hx]; exact ih b bs

/-- The loop's result is the empty initial text or a text whose score
is at least one (an update only happens on a strictly greater score,
which is then positive). -/
lemma bestLoop_empty_or_pos (l : List (Option String)) (b : String) (bs : Nat)
    (hb : b = "" ∨ 1 ≤ score b) :
    bestLoop l b bs = "" ∨ 1 ≤ score (bestLoop l b bs) := by
  induction l generalizing b bs with
  | nil => exact hb
  | cons r rest ih =>
    cases r with
    | none => rw [bestLoop]; exact ih b bs hb
    | some t =>
      rw [bestLoop]
      by_cases hx : bs < score t
      · rw [if_pos hx]; exact ih t (score t) (Or.inr (by omega))
      · rw [if_neg hx]; exact ih b bs hb

/-! ### Lemmas about whitespace-only text -/

/-- A whitespace character is rejected by the leading classes of the
email and phone patterns. -/
lemma space_char_props (c : Char) (h : isPySpace c = true) :
    emailLocalChar c = false ∧ c.isDigit = false ∧ (c == '+') = false ∧
      (c == '1') = false ∧ (c == '(') = false := by
  simp only [isPySpace, Bool.or_eq_true, beq_iff_eq] at h
  rcases h with ((((h | h) | h) | h) | h) | h <;> subst h <;> decide

/-- Unfolding equations of the matcher, stated in first-order form. -/
lemma mtchRe_cat (rec : RE → Option Char → List Char → List MState)
    (a b : RE) (prev : Option Char) (s : List Char) :
    mtchRe rec (.cat a b) prev s =
      (mtchRe rec a prev s).flatMap fun st => mtchRe rec b st.1 st.2 := rfl

lemma mtchRe_alt (rec : RE → Option Char → List Char → List MState)
    (a b : RE) (prev : Option Char) (s : List Char) :
    mtchRe rec (.alt a b) prev s =
      mtchRe rec a prev s ++ mtchRe rec b prev s := rfl

lemma mtchRe_opt (rec : RE → Option Char → List Char → List MState)
    (a : RE) (prev : Option Char) (s : List Char) :
    mtchRe rec (.opt a) prev s = mtchRe rec a prev s ++ [(prev, s)] := rfl

lemma mtchRe_cls_cons (rec : RE → Option Char → List Char → List MState)
    (p : Char → Bool) (prev : Option Char) (c : Char) (cs : List Char) :
    mtchRe rec (.cls p) prev (c :: cs) =
      if p c then [(some c, cs)] else [] := rfl

/-- A class rejecting the head character produces no match. -/
lemma mtch_cls_false (rec : RE → Option Char → List Char → List MState)
    (p : Char → Bool) (prev : Option Char) (c : Char) (cs : List Char)
    (hp : p c = false) : mtchRe rec (.cls p) prev (c :: cs) = [] := by
  rw [mtchRe_cls_cons, if_neg]
  simp [hp]

/-- A concatenation whose left part produces no match produces none. -/
lemma mtch_cat_fail (rec : RE → Option Char → List Char → List MState)
    (a b : RE) (prev : Option Char) (s : List Char)
    (ha : mtchRe rec a prev s = []) :
    mtchRe rec (.cat a b) prev s = [] := by
  rw [mtchRe_cat, ha]
  rfl

/-- An option whose body produces no match only yields the skip state. -/
lemma mtch_opt_skip (rec : RE → Option Char → List Char → List MState)
    (a : RE) (prev : Option Char) (s : List Char)
    (ha : mtchRe rec a prev s = []) :
    mtchRe rec (.opt a) prev s = [(prev, s)] := by
  rw [mtchRe_opt, ha]
  rfl

/-- A concatenation whose left part is an option with failing body and
whose right part fails at the unchanged position produces no match. -/
lemma mtch_cat_opt_fail (rec : RE → Option Char → List Char → List MState)
    (a b : RE) (prev : Option Char) (s : List Char)
    (ha : mtchRe rec a prev s = [])
    (hb : mtchRe rec b prev s = []) :
    mtchRe rec (.cat (.opt a) b) prev s = [] := by
  rw [mtchRe_cat, mtch_opt_skip rec a prev s ha]
  show mtchRe rec b prev s ++ [] = []
  rw [hb]
  rfl

/-- The email pattern never matches at a position whose remaining input
is all whitespace. -/
lemma mtch_email_space (n : Nat) (prev : Option Char) (s : List Char)
    (h : s.all isPySpace = true) : mtchF n EMAIL_RE prev s = [] := by
  cases n with
  | zero => rfl
  | succ n =>
    cases s with
    | nil => rfl
    | cons c cs =>
      have hc : isPySpace c = true := by
        simp only [List.all_cons, Bool.and_eq_true] at h
        exact h.1
      have hlocal : emailLocalChar c = false := (space_char_props c hc).1
      show mtchRe (mtchF n) EMAIL_RE prev (c :: cs) = []
      exact mtch_cat_fail _ _ _ _ _
        (mtch_cat_fail _ _ _ _ _ (mtch_cls_false _ _ _ _ _ hlocal))

/-- The phone pattern never matches at a position whose remaining input
is all whitespace. -/
lemma mtch_phone_space (n : Nat) (prev : Option Char) (s : List Char)
    (h : s.all isPySpace = true) : mtchF n PHONE_RE prev s = [] := by
  cases n with
  | zero => rfl
  | succ n =>
    cases s with
    | nil => rfl
    | cons c cs =>
      have hc : isPySpace c = true := by
        simp only [List.all_cons, Bool.and_eq_true] at h
        exact h.1
      obtain ⟨-, hdig, hplus, hone, hpar⟩ := space_char_props c hc
      have hd : mtchRe (mtchF n) digitC prev (c :: cs) = [] :=
        mtch_cls_false _ _ _ _ _ hdig
      have hd3 : mtchRe (mtchF n) d3 prev (c :: cs) = [] :=
        mtch_cat_fail _ _ _ _ _ hd
      have hone2 : mtchRe (mtchF n) (.cat (chr '1') sepC) prev (c :: cs) = [] :=
        mtch_cat_fail _ _ _ _ _ (mtch_cls_false _ _ _ _ _ hone)
      have hA : mtchRe (mtchF n)
          (.cat (.opt (chr '+')) (.cat (chr '1') sepC)) prev (c :: cs) = [] :=
        mtch_cat_opt_fail _ _ _ _ _ (mtch_cls_false _ _ _ _ _ hplus) hone2
      have hB1 : mtchRe (mtchF n)
          (.cat (.opt (chr '(')) (.cat d3 (.opt (chr ')')))) prev (c :: cs) = [] :=
        mtch_cat_opt_fail _ _ _ _ _ (mtch_cls_false _ _ _ _ _ hpar)
          (mtch_cat_fail _ _ _ _ _ hd3)
      have hAlt : mtchRe (mtchF n)
          (.alt (.cat (.opt (chr '(')) (.cat d3 (.opt (chr ')')))) d3)
          prev (c :: cs) = [] := by
        rw [mtchRe_alt, hB1, hd3]
        rfl
      have hTail : mtchRe (mtchF n)
          (.cat (.alt (.cat (.opt (chr '(')) (.cat d3 (.opt (chr ')')))) d3)
            (.cat (.opt sepC) (.cat d3 (.cat (.opt sepC) d4))))
          prev (c :: cs) = [] :=
        mtch_cat_fail _ _ _ _ _ hAlt
      have hOptOpt : mtchRe (mtchF n)
          (.opt (.opt (.cat (.opt (chr '+')) (.cat (chr '1') sepC))))
          prev (c :: cs) = [(prev, c :: cs), (prev, c :: cs)] := by
        rw [mtchRe_opt, mtch_opt_skip _ _ _ _ hA]
        rfl
      show mtchRe (mtchF n) PHONE_RE prev (c :: cs) = []
      rw [PHONE_RE, mtchRe_cat, hOptOpt]
      show mtchRe (mtchF n)
            (.cat (.alt (.cat (.opt (chr '(')) (.cat d3 (.opt (chr ')')))) d3)
              (.cat (.opt sepC) (.cat d3 (.cat (.opt sepC) d4))))
            prev (c :: cs) ++
          (mtchRe (mtchF n)
            (.cat (.alt (.cat (.opt (chr '(')) (.cat d3 (.opt (chr ')')))) d3)
              (.cat (.opt sepC) (.cat d3 (.cat (.opt sepC) d4))))
            prev (c :: cs) ++ []) = []
      rw [hTail]
      rfl

/-- If a pattern matches nowhere in an all-whitespace input, its
`findall` count there is zero. -/
lemma countAux_space (re : RE)
    (hre : ∀ n prev s, s.all isPySpace = true → mtchF n re prev s = [])
    (fuel : Nat) (prev : Option Char) (s : List Char)
    (h : s.all isPySpace = true) : countAux re fuel prev s = 0 := by
  induction fuel generalizing prev s with
  | zero => rfl
  | succ fuel ih =>
    have hm : matchAtSt re prev s = none := by
      rw [matchAtSt, hre _ _ _ h]
      rfl
    cases s with
    | nil =>
      show countStep [] (countAux re fuel) (matchAtSt re prev []) = 0
      rw [hm]
      rfl
    | cons c cs =>
      have hcs : cs.all isPySpace = true := by
        simp only [List.all_cons, Bool.and_eq_true] at h
        exact h.2
      show countStep (c :: cs) (countAux re fuel)
        (matchAtSt re prev (c :: cs)) = 0
      rw [hm]
      exact ih (some c) cs hcs

/-- Splitting an all-whitespace string produces no words. -/
lemma pySplitList_space (s : List Char) (h : s.all isPySpace = true) :
    pySplitList s = [] := by
  have hf : s.foldr pySplitStep ([], []) = ([], []) := by
    induction s with
    | nil => rfl
    | cons c cs ih =>
      simp only [List.all_cons, Bool.and_eq_true] at h
      rw [List.foldr_cons, ih h.2, pySplitStep, if_pos h.1]
      rfl
  rw [pySplitList, hf]
  rfl

/-- An all-whitespace text has score zero: no email match, no phone
match, no words. -/
lemma score_space (t : String) (h : t.data.all isPySpace = true) :
    score t = 0 := by
  rw [score, reCount, reCount, pySplit,
    countAux_space EMAIL_RE mtch_email_space _ _ _ h,
    countAux_space PHONE_RE mtch_phone_space _ _ _ h,
    pySplitList_space _ h]
  rfl

/-! ### The candidate loop as a filter -/

/-- The keep condition of the candidate loop: no email, phone or
website match, and at least two whitespace-separated tokens. -/
def keepLine (ln : String) : Bool :=
  !(reTest EMAIL_RE ln || reTest PHONE_RE ln || reTest WEB_RE ln) &&
    decide (2 ≤ (pySplit ln).length)

/-- The candidate loop collects exactly the lines passing `keepLine`,
in order. -/
lemma candLoop_eq_filter (l : List String) :
    candLoop l = l.filter keepLine := by
  induction l with
  | nil => rfl
  | cons ln rest ih =>
    by_cases h1 : (reTest EMAIL_RE ln || reTest PHONE_RE ln || reTest WEB_RE ln) = true
    · have hk : keepLine ln = false := by simp [keepLine, h1]
      rw [candLoop, if_pos h1, List.filter_cons, hk, ih]
      simp
    · by_cases h2 : (pySplit ln).length ≤ 1
      · have hk : keepLine ln = false := by
          simp only [keepLine, Bool.and_eq_false_iff, decide_eq_false_iff_not]
          right
          omega
        rw [candLoop, if_neg h1, if_pos h2, List.filter_cons, hk, ih]
        simp
      · have hk : keepLine ln = true := by
          simp only [keepLine, Bool.and_eq_true, Bool.not_eq_true',
            decide_eq_true_eq]
          exact ⟨by simpa using h1, by omega⟩
        rw [candLoop, if_neg h1, if_neg h2, List.filter_cons, hk, ih]
        simp

/-! ### The claims -/

/-- C1: for every OCR text `t`, the relevance score computed by the
variant scorer equals ten times the number of email-pattern matches in
`t`, plus five times the number of phone-pattern matches in `t`, plus
the number of whitespace-separated words in `t`. -/
theorem claim1_score_formula (t : String) :
    score t =
      10 * reCount EMAIL_RE t + 5 * reCount PHONE_RE t + (pySplit t).length := by
  rw [score]
  ring

/-- C2 (counterexample): two variants whose texts have equal scores for
which `selectBestText` returns neither text — both score zero, so the
initial empty result survives the strict greater-than comparison. -/
theorem claim2_counterexample :
    score " " = score "\t" ∧
    selectBestText (some [some " ", some "\t"]) ≠ " " ∧
    selectBestText (some [some " ", some "\t"]) ≠ "\t" ∧
    selectBestText (some [some " ", some "\t"]) = "" := by
  decide

/-- C2 (amended): when some variant's score is positive, is maximal
among all variants, and every earlier variant scores strictly less —
in particular at the first of several variants tied at the maximal
positive score — `selectBestText` returns that variant's text, because
selection uses strict greater-than comparison. -/
theorem claim2_amended_first_max (l : List String) (i : Nat) (hi : i < l.length)
    (hmax : ∀ j, (hj : j < l.length) →
      score (l.get ⟨j, hj⟩) ≤ score (l.get ⟨i, hi⟩))
    (hfirst : ∀ j, (hj : j < l.length) → j < i →
      score (l.get ⟨j, hj⟩) < score (l.get ⟨i, hi⟩))
    (hpos : 0 < score (l.get ⟨i, hi⟩)) :
    selectBestText (some (l.map some)) = l.get ⟨i, hi⟩ :=
  bestLoop_first_max l i hi "" 0 hpos hmax hfirst

/-- C2 (witness): two variants tied at the positive score two; the
earlier one's text is returned. -/
theorem claim2_amended_witness :
    score "a b" = score "c d" ∧
    selectBestText (some [some "a b", some "c d"]) = "a b" := by
  refine ⟨by decide, ?_⟩
  have hmax : ∀ j, (hj : j < (["a b", "c d"] : List String).length) →
      score ((["a b", "c d"] : List String).get ⟨j, hj⟩) ≤
        score ((["a b", "c d"] : List String).get ⟨0, by decide⟩) := by
    intro j hj
    match j, hj with
    | 0, _ => exact Nat.le_refl _
    | 1, _ =>
      show score "c d" ≤ score "a b"
      decide
    | n + 2, hj => exact absurd (by simpa using hj : n + 2 < 2) (by omega)
  have hfirst : ∀ j, (hj : j < (["a b", "c d"] : List String).length) →
      j < 0 →
      score ((["a b", "c d"] : List String).get ⟨j, hj⟩) <
        score ((["a b", "c d"] : List String).get ⟨0, by decide⟩) := by
    intro j hj hlt
    exact absurd hlt (by omega)
  exact claim2_amended_first_max ["a b", "c d"] 0 (by decide) hmax hfirst
    (by decide)

/-- C3 (counterexample): on the spec's own test input, `parse` does not
leave `website` empty — the website pattern matches the domain of the
email address. -/
theorem claim3_counterexample :
    (parse "John Doe\nAcme Corp\njohn@acme.com\n555-123-4567").website ≠ none ∧
    (parse "John Doe\nAcme Corp\njohn@acme.com\n555-123-4567").website =
      some "acme.com" := by
  decide

/-- C3 (amended): `parse` on the test input returns name "John Doe",
company "Acme Corp", email "john@acme.com", phone "555-123-4567", and
website "acme.com" (extracted from the email's domain), not `none`. -/
theorem claim3_amended_parse_value :
    parse "John Doe\nAcme Corp\njohn@acme.com\n555-123-4567" =
      { name := some "John Doe"
        company := some "Acme Corp"
        email := some "john@acme.com"
        phone := some "555-123-4567"
        website := some "acme.com"
        raw_text := "John Doe\nAcme Corp\njohn@acme.com\n555-123-4567" } := by
  decide

/-- C4 (counterexample): `parse "a@b.com\n555-1234"` returns no phone —
`PHONE_RE` requires a three-digit area code before the 3+4 digits, so
the seven-digit number does not match. -/
theorem claim4_counterexample :
    (parse "a@b.com\n555-1234").phone = none := by
  decide

/-- C4 (amended): `parse "a@b.com\n555-1234"` returns name `none`,
company `none`, email "a@b.com", and phone `none`, because `PHONE_RE`
does not make the area code optional; the optional-area-code behaviour
belongs to `PHONE_PATTERN` of `app.py`, which does match "555-1234". -/
theorem claim4_amended_parse_value :
    (parse "a@b.com\n555-1234").name = none ∧
    (parse "a@b.com\n555-1234").company = none ∧
    (parse "a@b.com\n555-1234").email = some "a@b.com" ∧
    (parse "a@b.com\n555-1234").phone = none ∧
    reSearch PHONE_PATTERN "a@b.com\n555-1234" = some "555-1234" := by
  decide

/-- C5: for every input, the candidate scan of `parse` looks only at
the first six non-empty trimmed lines, in order, keeps exactly those
with no email/phone/website match and at least two tokens, and assigns
the first survivor to `name` and the second to `company`. -/
theorem claim5_candidate_scan (text : String) :
    (parse text).name =
      (((((pySplitLines text).map pyStrip).filter (fun l => l ≠ "")).take 6).filter
        keepLine).head? ∧
    (parse text).company =
      (((((pySplitLines text).map pyStrip).filter (fun l => l ≠ "")).take 6).filter
        keepLine)[1]? := by
  simp only [parse, candLoop_eq_filter]
  exact ⟨trivial, trivial⟩

/-- C6: `selectBestText` returns the empty string when decoding fails,
when every variant's OCR call fails, and when no variant produces any
text (every variant failed or returned empty text); a single variant's
failure is skipped without affecting the rest of the loop. -/
theorem claim6_failure_modes :
    selectBestText none = "" ∧
    (∀ rs : List (Option String), (∀ r ∈ rs, r = none) →
      selectBestText (some rs) = "") ∧
    (∀ rs : List (Option String), (∀ r ∈ rs, r = none ∨ r = some "") →
      selectBestText (some rs) = "") ∧
    (∀ xs ys : List (Option String), ∀ b : String, ∀ bs : Nat,
      bestLoop (xs ++ none :: ys) b bs = bestLoop (xs ++ ys) b bs) := by
  refine ⟨rfl, ?_, ?_, ?_⟩
  · intro rs h
    exact bestLoop_all_none rs "" 0 h
  · intro rs h
    exact bestLoop_all_empty rs "" 0 h
  · intro xs ys b bs
    exact bestLoop_skip_none xs ys b bs

/-- C6 (witness): a run of two failed variants returns the empty
string, and so does a run whose variants all succeed with empty
text. -/
theorem claim6_witness :
    selectBestText (some [none, none]) = "" ∧
    selectBestText (some [some "", some ""]) = "" :=
  ⟨claim6_failure_modes.2.1 [none, none] (by simp),
   claim6_failure_modes.2.2.1 [some "", some ""] (by simp)⟩

/-- C7: `parse ""` returns a record whose five contact fields are all
`none`; as embedded, `parse` is a total function, so it never fails. -/
theorem claim7_parse_empty :
    (parse "").name = none ∧ (parse "").company = none ∧
    (parse "").email = none ∧ (parse "").phone = none ∧
    (parse "").website = none := by
  decide

/-- C8: the caller's name splitting turns a single-token name into that
token as first name with an empty last name, and a multi-token name
into its first token and the remaining tokens joined by single
spaces. -/
theorem claim8_name_split (nm t : String) :
    (pySplit nm = [t] → splitName nm = some (t, "")) ∧
    (∀ r rs, pySplit nm = t :: r :: rs →
      splitName nm = some (t, joinWith " " (r :: rs))) := by
  constructor
  · intro h
    simp [splitName, h]
  · intro r rs h
    simp [splitName, h]

/-- C8 (witness): the single-token name "Madonna" yields first name
"Madonna" and empty last name. -/
theorem claim8_witness :
    pySplit "Madonna" = ["Madonna"] ∧
    splitName "Madonna" = some ("Madonna", "") :=
  ⟨by decide, (claim8_name_split "Madonna" "Madonna").1 (by decide)⟩

/-- C9: the upsert identifier is derived from the lowercased email, so
two emails equal up to case get the same subscriber hash and member
URL, and the payload email is the lowercased input. -/
theorem claim9_lowercase_key (f : String → String)
    (server listId e1 e2 : String) (h1 : e1 ≠ "")
    (h : pyLower e1 = pyLower e2) :
    subscriberHash f e1 = subscriberHash f e2 ∧
    memberUrl f server listId e1 = memberUrl f server listId e2 ∧
    payloadEmail e1 = pyLower e1 := by
  rw [memberUrl, memberUrl, subscriberHash, subscriberHash, payloadEmail, h]
  exact ⟨rfl, rfl, rfl⟩

/-- C9 (witness): two case variants of the same address produce the
same subscriber hash and member URL. -/
theorem claim9_witness :
    ("A@B.com" : String) ≠ "" ∧
    pyLower "A@B.com" = pyLower "a@b.COM" ∧
    subscriberHash id "A@B.com" = subscriberHash id "a@b.COM" ∧
    memberUrl id "us1" "list1" "A@B.com" = memberUrl id "us1" "list1" "a@b.COM" ∧
    payloadEmail "A@B.com" = pyLower "A@B.com" := by
  refine ⟨by decide, by decide, ?_, ?_, ?_⟩
  · exact (claim9_lowercase_key id "us1" "list1" "A@B.com" "a@b.COM"
      (by decide) (by decide)).1
  · exact (claim9_lowercase_key id "us1" "list1" "A@B.com" "a@b.COM"
      (by decide) (by decide)).2.1
  · exact (claim9_lowercase_key id "us1" "list1" "A@B.com" "a@b.COM"
      (by decide) (by decide)).2.2

/-- C10: `selectBestText` never returns a non-empty whitespace-only
string: its result is the empty string or has score at least one, and
a whitespace-only text scores zero, so it can never replace the
initial empty result. -/
theorem claim10_no_whitespace_result (d : Option (List (Option String))) :
    (selectBestText d = "" ∨ 1 ≤ score (selectBestText d)) ∧
    ¬(selectBestText d ≠ "" ∧ (selectBestText d).data.all isPySpace = true) := by
  have h1 : selectBestText d = "" ∨ 1 ≤ score (selectBestText d) := by
    cases d with
    | none => exact Or.inl rfl
    | some rs => exact bestLoop_empty_or_pos rs "" 0 (Or.inl rfl)
  refine ⟨h1, ?_⟩
  rintro ⟨hne, hsp⟩
  rcases h1 with h | h
  · exact hne h
  · rw [score_space _ hsp] at h
    omega

/-- C10 (witness): a concrete run with one whitespace-only variant and
one real text. -/
theorem claim10_witness :
    (selectBestText (some [some " ", some "hello world"]) = "" ∨
      1 ≤ score (selectBestText (some [some " ", some "hello world"]))) ∧
    ¬(selectBestText (some [some " ", some "hello world"]) ≠ "" ∧
      (selectBestText (some [some " ", some "hello world"])).data.all
        isPySpace = true) :=
  claim10_no_whitespace_result (some [some " ", some "hello world"])

end BizCard
